import Mathlib

/-!
# Verification of the pipe RPC plugin orchestration core

A shallow embedding of `pytorch_lightning/plugins/pipe_rpc_plugin.py`:
the balance resolver, process-topology initializer, optimizer coordinator
and distributed checkpoint coordinator, with theorems checking the design
document's claims against them.

Conventions: Python ints are `ℕ` (all quantities here are non-negative
counts or ranks); the single Python float division is modelled as `ℚ`;
code that can raise returns `Except String` or `Option`; the shard-file
directory is a map from rank to the optional saved content.
-/

/-! ## Process topology initializer -/

/-- Embeds fairscale's `ensure_divisibility(numerator, denominator)`, the
external helper `init_model_parallel_groups` calls: it asserts
`numerator % denominator == 0` with the message
`"{numerator} is not divisible by {denominator}"`. -/
def ensure_divisibility (numerator denominator : ℕ) : Except String Unit :=
  if numerator % denominator = 0 then Except.ok ()
  else Except.error (toString numerator ++ " is not divisible by " ++ toString denominator)

/-- The values `init_model_parallel_groups` computes and hands to the
model-parallel group initializer: `self.num_gpus_per_model` and the two
arguments of `mpu.initialize_model_parallel(num_model_parallel, world_size)`.
`num_model_parallel` is a Python float division, modelled as `ℚ`. -/
structure ModelParallelInit where
  num_gpus_per_model : ℕ
  num_model_parallel : ℚ
  world_size : ℕ
deriving DecidableEq

/-- Embeds `PipeRPCPlugin.init_model_parallel_groups(world_size)`:
`num_gpus_per_model = len(self.balance)`; assert divisibility of
`world_size` by it; then `num_model_parallel = num_gpus_per_model / world_size`
(note the orientation: the numerator is the per-model device count). -/
def init_model_parallel_groups (balance : List ℕ) (world_size : ℕ) :
    Except String ModelParallelInit :=
  let num_gpus_per_model := balance.length
  match ensure_divisibility world_size num_gpus_per_model with
  | Except.error e => Except.error e
  | Except.ok _ =>
      Except.ok ⟨num_gpus_per_model, (num_gpus_per_model : ℚ) / (world_size : ℚ), world_size⟩

/-! ## Balance resolver -/

/-- The exact message of `_assert_valid_model_balance`'s
`MisconfigurationException` (the source f-string writes `doesn t`). -/
def balance_mismatch_msg (balance_sum sequential_len : ℕ) : String :=
  "The provided balance sum: " ++ toString balance_sum ++
    " doesn t match your Sequential length: " ++ toString sequential_len

/-- Embeds `PipeRPCPlugin._assert_valid_model_balance`: raise a
`MisconfigurationException` naming both values when
`sum(self.balance) != len(model.layers)`, otherwise pass. -/
def assert_valid_model_balance (balance : List ℕ) (model_layers_len : ℕ) :
    Except String Unit :=
  if balance.sum ≠ model_layers_len then
    Except.error (balance_mismatch_msg balance.sum model_layers_len)
  else Except.ok ()

/-! ## Main RPC process designation -/

/-- Embeds `PipeRPCPlugin.set_main_rpc_process(global_rank)`: the code sets
`self.main_rpc_process = global_rank != 0`. -/
def set_main_rpc_process (global_rank : ℕ) : Bool :=
  global_rank != 0

/-! ## Claim theorems: topology, balance, main process -/

/-- C1: topology initialization does fail exactly on indivisible world sizes,
but the replica count the code computes is `num_gpus_per_model / world_size`,
not `world_size / num_gpus_per_model`: with balance `[1, 1]` (two devices per
model) and world size 4 the code passes `2 / 4 = 1/2` to the group
initializer, while the claimed data-parallel replica count is `4 / 2 = 2`. -/
theorem C1_code_bug :
    init_model_parallel_groups [1, 1] 3 = Except.error "3 is not divisible by 2"
  ∧ init_model_parallel_groups [1, 1] 4 = Except.ok ⟨2, (2 : ℚ) / 4, 4⟩
  ∧ (2 : ℚ) / 4 ≠ (4 : ℚ) / 2 := by
  refine ⟨rfl, rfl, by norm_num⟩

/-- C2: balance validation passes exactly when `sum(balance)` equals the
sequential length, and on mismatch it raises a configuration error whose
message contains the decimal rendering of both the balance sum and the
sequential length. -/
theorem C2_balance_validation (B : List ℕ) (L : ℕ) :
    (assert_valid_model_balance B L = Except.ok () ↔ B.sum = L)
  ∧ (B.sum ≠ L →
      assert_valid_model_balance B L = Except.error (balance_mismatch_msg B.sum L)
      ∧ (toString B.sum).data <:+: (balance_mismatch_msg B.sum L).data
      ∧ (toString L).data <:+: (balance_mismatch_msg B.sum L).data) := by
  constructor
  · constructor
    · intro h
      by_contra hne
      simp [assert_valid_model_balance, hne] at h
    · intro h
      simp [assert_valid_model_balance, h]
  · intro hne
    refine ⟨by simp [assert_valid_model_balance, hne], ?_, ?_⟩
    · refine ⟨("The provided balance sum: " : String).data,
        (" doesn t match your Sequential length: " ++ toString L).data, ?_⟩
      simp [balance_mismatch_msg, String.data_append]
    · refine ⟨("The provided balance sum: " ++ toString B.sum ++
        " doesn t match your Sequential length: " : String).data, [], ?_⟩
      simp [balance_mismatch_msg, String.data_append]

/-- C2 witness: balance `[2, 1]` against a 4-layer sequential fails with the
message reporting sums 3 and 4. -/
theorem C2_witness :
    assert_valid_model_balance [2, 1] 4 = Except.error (balance_mismatch_msg 3 4) :=
  ((C2_balance_validation [2, 1] 4).2 (by decide)).1

/-- C4: the code marks `main_rpc_process = (global_rank != 0)`: the flag is
`false` on the lowest global rank 0 and `true` on rank 1, contradicting the
claim that it is true precisely for the lowest global rank. -/
theorem C4_code_bug :
    set_main_rpc_process 0 = false
  ∧ set_main_rpc_process 1 = true
  ∧ ¬ (∀ global_rank : ℕ, set_main_rpc_process global_rank = true ↔ global_rank = 0) := by
  refine ⟨rfl, rfl, fun h => ?_⟩
  have h0 := (h 0).mpr rfl
  simp [set_main_rpc_process] at h0

/-! ## Plugin construction and balance inference -/

/-- The state `PipeRPCPlugin.__init__` leaves behind when it succeeds. -/
structure PipePluginConfig where
  balance : List ℕ
  num_partitions : Option ℕ
  microbatches : ℕ
  checkpoint : String
  balance_mode : String
  pipelined_backward : Bool
  main_rpc_process : Bool
deriving DecidableEq

/-- Embeds `PipeRPCPlugin.__init__`: when `balance` is `None` it raises a
`MisconfigurationException` immediately; otherwise it stores the arguments
and sets `main_rpc_process = False`. -/
def pipe_rpc_plugin_init (balance : Option (List ℕ)) (num_partitions : Option ℕ)
    (microbatches : ℕ) (checkpoint : String) (balance_mode : String)
    (pipelined_backward : Bool) : Except String PipePluginConfig :=
  match balance with
  | none =>
      Except.error ("Please, provide a balance for your model. " ++
        "Example: nn.Sequential(torch.nn.Linear(32, 32), nn.ReLU(), nn.Linear(32, 2)) " ++
        "contains 3 layers. A possible balance between 2 gpus is [2, 1]")
  | some b =>
      Except.ok ⟨b, num_partitions, microbatches, checkpoint, balance_mode,
        pipelined_backward, false⟩

/-- Embeds `PipeRPCPlugin._infer_model_balance`: partitions is
`num_partitions` when given, else the visible device count; raise a
`MisconfigurationException` when the model has no `example_input_array`;
otherwise return the selected fairscale balance function applied to the
partition count, the model layers and the example input. The balance
function itself is an external collaborator, taken as a parameter. -/
def infer_model_balance (num_partitions : Option ℕ) (cuda_device_count : ℕ)
    (example_input_array : Option ℕ) (model_layers : List ℕ)
    (balance_func : ℕ → List ℕ → ℕ → List ℕ) : Except String (List ℕ) :=
  let partitions := match num_partitions with
    | none => cuda_device_count
    | some p => p
  match example_input_array with
  | none =>
      Except.error ("Please set example_input_array to your model, " ++
        "so we can infer the right model balance for you")
  | some x => Except.ok (balance_func partitions model_layers x)

/-! ## Optimizer coordinator -/

/-- The cross-process side effects `optimizer_step` can perform: the local
`optimizer.step(closure=closure)` on the main process, and the
`foreach_worker(run_optimizer, {opt_idx}, include_self)` broadcast. -/
inductive PipeEffect
  | localStep
  | broadcastRunOptimizer (opt_idx : ℕ) (include_self : Bool)
deriving DecidableEq

/-- Embeds `PipeRPCPlugin.on_after_setup_optimizers`: the optimizers map
holds `False` for every optimizer index `0 .. num_optimizers - 1`. -/
def on_after_setup_optimizers (num_optimizers : ℕ) : List Bool :=
  List.replicate num_optimizers false

/-- Embeds `PipeRPCPlugin.optimizer_step` together with `_optimizer_step`:
flip `self._optimizers_map[opt_idx]`; if the flipped value is true, run the
local `optimizer.step` and broadcast `run_optimizer` with
`include_self=False`, returning `True`; otherwise return `False`. A missing
index (Python `KeyError`) is `none`. The result is the updated map, the
returned boolean, and the effects performed in order. -/
def optimizer_step (optimizers_map : List Bool) (opt_idx : ℕ) :
    Option (List Bool × Bool × List PipeEffect) :=
  match optimizers_map.get? opt_idx with
  | none => none
  | some b =>
      let flipped := !b
      let updated := optimizers_map.set opt_idx flipped
      if flipped then
        some (updated, true,
          [PipeEffect.localStep, PipeEffect.broadcastRunOptimizer opt_idx false])
      else
        some (updated, false, [])

/-- The closure a remote worker's optimizer steps with: either the
`_closure` attached to it, or the `do_nothing_optimizer_closure` fallback. -/
inductive ClosureUsed
  | attached (c : ℕ)
  | doNothing
deriving DecidableEq

/-- Embeds top-level `do_nothing_optimizer_closure` (returns nothing). -/
def do_nothing_optimizer_closure : ClosureUsed :=
  ClosureUsed.doNothing

/-- Embeds top-level `run_optimizer(ctx, model)`: look up
`trainer.optimizers[ctx["opt_idx"]]` (a missing index is `none`), resolve
`getattr(optimizer, "_closure", do_nothing_optimizer_closure)`, and call
`optimizer.step(closure=closure)` — the result records which optimizer
index stepped and with which closure. Each optimizer is represented by its
optionally attached closure. -/
def run_optimizer (ctx_opt_idx : ℕ) (trainer_optimizers : List (Option ℕ)) :
    Option (ℕ × ClosureUsed) :=
  match trainer_optimizers.get? ctx_opt_idx with
  | none => none
  | some attached_closure =>
      let closure := match attached_closure with
        | some c => ClosureUsed.attached c
        | none => do_nothing_optimizer_closure
      some (ctx_opt_idx, closure)

/-! ## Claim theorems: construction, inference, optimizer coordination -/

/-- C5 counterexample: a configuration with no explicit balance never reaches
the connection-setup inference code: `__init__` itself raises the
configuration error, for the default values of every other argument. -/
theorem C5_counterexample :
    pipe_rpc_plugin_init none none 8 "except_last" "balance_by_size" true
      = Except.error ("Please, provide a balance for your model. " ++
        "Example: nn.Sequential(torch.nn.Linear(32, 32), nn.ReLU(), nn.Linear(32, 2)) " ++
        "contains 3 layers. A possible balance between 2 gpus is [2, 1]") := rfl

/-- C5 amended: constructing the plugin without a balance always fails (so the
inference code is unreachable through the plugin); `_infer_model_balance`
itself raises a configuration error exactly when the model exposes no
`example_input_array`, and when one is present it returns the selected
balance function applied to the partition count (the explicit
`num_partitions`, else the visible device count), the layers and the input. -/
theorem C5_amended :
    (∀ (np : Option ℕ) (mb : ℕ) (cp bm : String) (pb : Bool),
      pipe_rpc_plugin_init none np mb cp bm pb
        = Except.error ("Please, provide a balance for your model. " ++
          "Example: nn.Sequential(torch.nn.Linear(32, 32), nn.ReLU(), nn.Linear(32, 2)) " ++
          "contains 3 layers. A possible balance between 2 gpus is [2, 1]"))
  ∧ (∀ (np : Option ℕ) (dc : ℕ) (ex : Option ℕ) (ml : List ℕ)
      (f : ℕ → List ℕ → ℕ → List ℕ),
      ((∃ e, infer_model_balance np dc ex ml f = Except.error e) ↔ ex = none))
  ∧ (∀ (np : Option ℕ) (dc x : ℕ) (ml : List ℕ) (f : ℕ → List ℕ → ℕ → List ℕ),
      infer_model_balance np dc (some x) ml f
        = Except.ok (f (np.getD dc) ml x)) := by
  refine ⟨fun np mb cp bm pb => rfl, fun np dc ex ml f => ?_, fun np dc x ml f => ?_⟩
  · cases ex with
    | none => simp [infer_model_balance]
    | some x => simp [infer_model_balance]
  · cases np with
    | none => rfl
    | some p => rfl

/-- C3 counterexample: with one optimizer whose toggle starts at `false`, the
first `optimizer_step` call does not return `false`: it flips the toggle to
`true` and performs the step. -/
theorem C3_counterexample :
    ¬ ((optimizer_step (on_after_setup_optimizers 1) 0).map (fun r => r.2.1)
        = some false) := by
  decide

/-- C3 amended: starting from a freshly initialized map, two consecutive
`optimizer_step` calls on index `i < n` produce exactly one actual step, the
FIRST call returning `true` (step performed, with the local step and the
broadcast) and the SECOND returning `false` (no step, no effects); the toggle
at `i` is `false` again after the second call. -/
theorem C3_amended (n i : ℕ) (h : i < n) :
    optimizer_step (on_after_setup_optimizers n) i
      = some ((on_after_setup_optimizers n).set i true, true,
          [PipeEffect.localStep, PipeEffect.broadcastRunOptimizer i false])
  ∧ optimizer_step ((on_after_setup_optimizers n).set i true) i
      = some (((on_after_setup_optimizers n).set i true).set i false, false, [])
  ∧ (((on_after_setup_optimizers n).set i true).set i false).get? i = some false := by
  have hlen : i < (on_after_setup_optimizers n).length := by
    simpa [on_after_setup_optimizers] using h
  have h0 : (on_after_setup_optimizers n)[i]? = some false := by
    rw [List.getElem?_eq_getElem hlen]
    simp [on_after_setup_optimizers]
  have hlen1 : i < ((on_after_setup_optimizers n).set i true).length := by
    simpa using hlen
  have h1 : ((on_after_setup_optimizers n).set i true)[i]? = some true := by
    rw [List.getElem?_eq_getElem hlen1]
    simp
  have h2 : (((on_after_setup_optimizers n).set i true).set i false)[i]?
      = some false := by
    have hlen2 : i < (((on_after_setup_optimizers n).set i true).set i false).length := by
      simpa using hlen
    rw [List.getElem?_eq_getElem hlen2]
    simp
  refine ⟨?_, ?_, by simpa [List.get?_eq_getElem?] using h2⟩
  · simp [optimizer_step, h0]
  · simp [optimizer_step, h1]

/-- C3 witness: one optimizer, index 0. -/
theorem C3_amended_witness :
    optimizer_step (on_after_setup_optimizers 1) 0
      = some ((on_after_setup_optimizers 1).set 0 true, true,
          [PipeEffect.localStep, PipeEffect.broadcastRunOptimizer 0 false])
  ∧ optimizer_step ((on_after_setup_optimizers 1).set 0 true) 0
      = some (((on_after_setup_optimizers 1).set 0 true).set 0 false, false, [])
  ∧ (((on_after_setup_optimizers 1).set 0 true).set 0 false).get? 0 = some false :=
  C3_amended 1 0 (by decide)

/-- C6: when the flipped toggle is `false` the call performs no effect and
returns `false`; when it is `true` the local step runs and the broadcast goes
to the other shard-holders only (`include_self = false`); and a remote
worker's `run_optimizer` steps the optimizer at the context index with its
attached closure, falling back to `do_nothing_optimizer_closure` when none is
attached. -/
theorem C6_step_dispatch (m : List Bool) (i : ℕ) (b : Bool) (hm : m.get? i = some b) :
    (b = true → optimizer_step m i = some (m.set i false, false, []))
  ∧ (b = false → optimizer_step m i
      = some (m.set i true, true,
          [PipeEffect.localStep, PipeEffect.broadcastRunOptimizer i false]))
  ∧ (∀ (opts : List (Option ℕ)) (c : ℕ), opts.get? i = some (some c) →
      run_optimizer i opts = some (i, ClosureUsed.attached c))
  ∧ (∀ opts : List (Option ℕ), opts.get? i = some none →
      run_optimizer i opts = some (i, do_nothing_optimizer_closure)) := by
  rw [List.get?_eq_getElem?] at hm
  refine ⟨?_, ?_, ?_, ?_⟩
  · intro hb
    subst hb
    simp [optimizer_step, hm]
  · intro hb
    subst hb
    simp [optimizer_step, hm]
  · intro opts c hc
    rw [List.get?_eq_getElem?] at hc
    simp [run_optimizer, hc]
  · intro opts hc
    rw [List.get?_eq_getElem?] at hc
    simp [run_optimizer, hc, do_nothing_optimizer_closure]

/-- C6 witness: a two-optimizer map with toggles `[true, false]` and a
two-optimizer list where optimizer 0 has closure 7 attached and optimizer 1
has none. -/
theorem C6_witness :
    optimizer_step [true, false] 0 = some ([false, false], false, [])
  ∧ run_optimizer 0 [some 7, none] = some (0, ClosureUsed.attached 7)
  ∧ run_optimizer 0 [none, some 7] = some (0, do_nothing_optimizer_closure) := by
  refine ⟨(C6_step_dispatch [true, false] 0 true rfl).1 rfl,
    (C6_step_dispatch [true, false] 0 true rfl).2.2.1 [some 7, none] 7 rfl,
    (C6_step_dispatch [true, false] 0 true rfl).2.2.2 [none, some 7] rfl⟩

/-! ## Distributed checkpoint coordinator

A child module is a `(name, parameter value)` pair; a sequential module is
its ordered list of named children. The shard-file directory maps a rank to
the content of `seq_<rank>.pt` when that file exists. -/

abbrev Child := ℕ × ℕ

abbrev SeqModule := List Child

abbrev ShardFS := ℕ → Option SeqModule

/-- Embeds top-level `save(ctx, model)` run on a worker of rank `rank`:
if `rank in range(num_gpus_per_model)`, serialize the worker's local partial
sequential (`list(model.children())[0]`, here `local_seq`) to
`seq_<rank>.pt`; otherwise do nothing. -/
def save_shard (num_gpus_per_model rank : ℕ) (local_seq : SeqModule)
    (fs : ShardFS) : ShardFS :=
  if rank < num_gpus_per_model then
    fun r => if r = rank then some local_seq else fs r
  else fs

/-- The `model.foreach_worker(save, {num_gpus_per_model}, include_self=True)`
broadcast of `rpc_save_model`: every rank of the model-parallel group
(ranks `0 .. n-1`, `n = num_gpus_per_model`) runs `save` on its local
partial model `local_seq rank`. -/
def save_all_shards (n : ℕ) (local_seq : ℕ → SeqModule) (fs : ShardFS) : ShardFS :=
  (List.range n).foldl (fun f r => save_shard n r (local_seq r) f) fs

/-- The list comprehension
`[torch.load(f"seq_<rank>.pt") for rank in ranks]` of `reload_sequential`:
`torch.load` of a missing file raises, modelled as `none`. -/
def load_all (fs : ShardFS) : List ℕ → Option (List SeqModule)
  | [] => some []
  | r :: rs =>
      match fs r with
      | none => none
      | some s => (load_all fs rs).map (fun l => s :: l)

/-- Embeds `nn.Module.add_module(name, child)` as used on the fresh
`nn.SeqModule()`: Python dict assignment `self._modules[name] = module`
overwrites in place when the name exists and appends otherwise. -/
def add_module (seq : SeqModule) (name : ℕ) (child : ℕ) : SeqModule :=
  if seq.any (fun nc => nc.1 == name) then
    seq.map (fun nc => if nc.1 == name then (name, child) else nc)
  else seq ++ [(name, child)]

/-- The reconstruction loop of `reload_sequential`: starting from an empty
`nn.SeqModule()`, for each loaded partial sequential in rank order, add its
named children in order. -/
def concat_children (part_seqs : List SeqModule) : SeqModule :=
  part_seqs.foldl
    (fun seq p_seq => p_seq.foldl (fun s nc => add_module s nc.1 nc.2) seq) []

/-- `os.remove(f"seq_<rank>.pt")`: raises when the file is missing. -/
def remove_file (fs : ShardFS) (rank : ℕ) : Option ShardFS :=
  match fs rank with
  | none => none
  | some _ => some (fun r => if r = rank then none else fs r)

/-- The cleanup comprehension
`[os.remove(f"seq_<rank>.pt") for rank in ranks]` of `reload_sequential`. -/
def remove_all (fs : ShardFS) : List ℕ → Option ShardFS
  | [] => some fs
  | r :: rs =>
      match remove_file fs r with
      | none => none
      | some fs2 => remove_all fs2 rs

/-- Embeds top-level `reload_sequential(num_gpus_per_model)`: load every
shard file in ascending rank order (an exception propagates with the file
system unchanged, since the removes only run afterwards), concatenate the
loaded partial sequentials' named children into a fresh sequential, delete
the shard files, and return the sequential. The result is the optional
reconstructed module (`none` when an exception escaped) together with the
file-system state afterwards. -/
def reload_sequential (fs : ShardFS) (num_gpus_per_model : ℕ) :
    Option SeqModule × ShardFS :=
  match load_all fs (List.range num_gpus_per_model) with
  | none => (none, fs)
  | some part_seqs =>
      match remove_all fs (List.range num_gpus_per_model) with
      | none => (none, fs)
      | some fs2 => (some (concat_children part_seqs), fs2)

/-- `pl_module.layers`: either the original pipeline-wrapped layers object
(identified by an id, to state that the very same object is restored) or a
plain sequential module. -/
inductive Layers
  | pipe_wrapped (oid : ℕ)
  | sequential (seq : SeqModule)
deriving DecidableEq

/-- The observable outcome of `rpc_save_model`: whether it returned without
raising, the shard-file directory afterwards, the final `pl_module.layers`,
and the list of `pl_module.layers` values that `save_model_fn` was invoked
with (in order). -/
structure RPCSaveResult where
  ok : Bool
  fs : ShardFS
  layers : Layers
  save_model_calls : List SeqModule

/-- Embeds `PipeRPCPlugin.rpc_save_model(save_model_fn, last_filepath,
trainer, pl_module)`: if the model has no `foreach_worker` attribute, do
nothing. Otherwise remember `current_layers`, broadcast `save` to every
shard-holder (including self), swap `pl_module.layers` for the reloaded
sequential (an exception in the reload propagates, leaving `layers`
unassigned), invoke `save_model_fn` on the swapped module, then delete the
temporary attribute and restore `current_layers`. -/
def rpc_save_model (has_foreach_worker : Bool) (num_gpus_per_model : ℕ)
    (local_seq : ℕ → SeqModule) (fs : ShardFS) (layers : Layers) : RPCSaveResult :=
  if has_foreach_worker then
    let current_layers := layers
    let fs1 := save_all_shards num_gpus_per_model local_seq fs
    match reload_sequential fs1 num_gpus_per_model with
    | (none, fs2) => ⟨false, fs2, current_layers, []⟩
    | (some seq, fs2) => ⟨true, fs2, current_layers, [seq]⟩
  else ⟨true, fs, layers, []⟩

/-! ## Checkpoint coordinator lemmas -/

/-- Folding `save` over ranks `k, k+1, ..., k+len-1` (all below `n`) writes
each of those shard files and touches nothing else. -/
theorem save_shard_fold_apply (n : ℕ) (local_seq : ℕ → SeqModule) :
    ∀ (len k : ℕ) (fs : ShardFS) (r : ℕ), k + len ≤ n →
      ((List.range' k len).foldl (fun f j => save_shard n j (local_seq j) f) fs) r
        = if k ≤ r ∧ r < k + len then some (local_seq r) else fs r := by
  intro len
  induction len with
  | zero =>
      intro k fs r h
      have hc : ¬ (k ≤ r ∧ r < k + 0) := by omega
      simp only [List.range'_zero, List.foldl_nil]
      rw [if_neg hc]
  | succ m ih =>
      intro k fs r h
      rw [List.range'_succ]
      simp only [List.foldl_cons]
      have hk : k < n := by omega
      have step : save_shard n k (local_seq k) fs
          = fun s => if s = k then some (local_seq k) else fs s := by
        simp [save_shard, hk]
      rw [step, ih (k + 1) _ r (by omega)]
      by_cases h1 : k + 1 ≤ r ∧ r < k + 1 + m
      · have h2 : k ≤ r ∧ r < k + (m + 1) := by omega
        simp [h1, h2]
      · by_cases hr : r = k
        · subst hr
          have h2 : r ≤ r ∧ r < r + (m + 1) := by omega
          simp [h1, h2]
        · have h2 : ¬ (k ≤ r ∧ r < k + (m + 1)) := by omega
          simp [h1, h2, hr]

/-- `save_all_shards` writes exactly the shard files of ranks below `n`. -/
theorem save_all_shards_apply (n : ℕ) (local_seq : ℕ → SeqModule) (fs : ShardFS) (r : ℕ) :
    save_all_shards n local_seq fs r = if r < n then some (local_seq r) else fs r := by
  unfold save_all_shards
  rw [List.range_eq_range']
  rw [save_shard_fold_apply n local_seq n 0 fs r (by omega)]
  by_cases h : r < n
  · have h2 : 0 ≤ r ∧ r < 0 + n := by omega
    simp [h, h2]
  · have h2 : ¬ (0 ≤ r ∧ r < 0 + n) := by omega
    simp [h, h2]

/-- When every listed shard file is present, loading returns their contents
in list order. -/
theorem load_all_eq_some (fs : ShardFS) (g : ℕ → SeqModule) :
    ∀ l : List ℕ, (∀ r ∈ l, fs r = some (g r)) →
      load_all fs l = some (l.map g) := by
  intro l
  induction l with
  | nil => intro _; rfl
  | cons a l ih =>
      intro h
      have ha : fs a = some (g a) := h a (by simp)
      have hl : load_all fs l = some (l.map g) := ih (fun r hr => h r (by simp [hr]))
      simp [load_all, ha, hl]

/-- When any listed shard file is missing, loading raises. -/
theorem load_all_of_missing (fs : ShardFS) :
    ∀ (l : List ℕ) (r : ℕ), r ∈ l → fs r = none → load_all fs l = none := by
  intro l
  induction l with
  | nil => intro r hr; cases hr
  | cons a l ih =>
      intro r hr hnone
      rcases List.mem_cons.mp hr with h | h
      · subst h
        simp [load_all, hnone]
      · cases ha : fs a with
        | none => simp [load_all, ha]
        | some s => simp [load_all, ha, ih r h hnone]

/-- Removing the files of ranks `k .. k+len-1`, all present, succeeds and
clears exactly those entries. -/
theorem remove_all_range'_spec :
    ∀ (len k : ℕ) (fs : ShardFS),
      (∀ r, k ≤ r → r < k + len → (fs r).isSome) →
      ∃ fs2, remove_all fs (List.range' k len) = some fs2
        ∧ ∀ r, fs2 r = if k ≤ r ∧ r < k + len then none else fs r := by
  intro len
  induction len with
  | zero =>
      intro k fs _
      refine ⟨fs, rfl, fun r => ?_⟩
      have hc : ¬ (k ≤ r ∧ r < k + 0) := by omega
      rw [if_neg hc]
  | succ m ih =>
      intro k fs h
      rw [List.range'_succ]
      have hk : (fs k).isSome := h k (by omega) (by omega)
      rcases hsome : fs k with _ | s
      · rw [hsome] at hk
        simp at hk
      · have hrf : remove_file fs k = some (fun r => if r = k then none else fs r) := by
          simp [remove_file, hsome]
        have h1 : ∀ r, k + 1 ≤ r → r < (k + 1) + m →
            ((fun r => if r = k then none else fs r) r).isSome := by
          intro r hr1 hr2
          have hne : r ≠ k := by omega
          simpa [hne] using h r (by omega) (by omega)
        rcases ih (k + 1) _ h1 with ⟨fs2, hrem, hfs2⟩
        refine ⟨fs2, ?_, ?_⟩
        · simp [remove_all, hrf, hrem]
        · intro r
          rw [hfs2 r]
          by_cases hc : k + 1 ≤ r ∧ r < k + 1 + m
          · have h2 : k ≤ r ∧ r < k + (m + 1) := by omega
            simp [hc, h2]
          · by_cases hr : r = k
            · subst hr
              have h2 : r ≤ r ∧ r < r + (m + 1) := by omega
              simp [hc, h2]
            · have h2 : ¬ (k ≤ r ∧ r < k + (m + 1)) := by omega
              simp [hc, h2, hr]

/-- Specialization to ranks `0 .. n-1`. -/
theorem remove_all_range_spec (n : ℕ) (fs : ShardFS)
    (h : ∀ r, r < n → (fs r).isSome) :
    ∃ fs2, remove_all fs (List.range n) = some fs2
      ∧ ∀ r, fs2 r = if r < n then none else fs r := by
  rw [List.range_eq_range']
  rcases remove_all_range'_spec n 0 fs (fun r _ hr => h r (by omega)) with ⟨fs2, h1, h2⟩
  refine ⟨fs2, h1, fun r => ?_⟩
  rw [h2 r]
  by_cases hr : r < n
  · have h3 : 0 ≤ r ∧ r < 0 + n := by omega
    simp [hr, h3]
  · have h3 : ¬ (0 ≤ r ∧ r < 0 + n) := by omega
    simp [hr, h3]

/-- `add_module` with a name not yet present appends the child. -/
theorem add_module_fresh (seq : SeqModule) (nm child : ℕ)
    (h : ∀ nc ∈ seq, nc.1 ≠ nm) :
    add_module seq nm child = seq ++ [(nm, child)] := by
  have hany : seq.any (fun nc => nc.1 == nm) = false := by
    rw [List.any_eq_false]
    intro nc hnc
    simpa using h nc hnc
  simp [add_module, hany]

/-- Adding the children of one partial sequential whose names are fresh for
the accumulator and mutually distinct appends them in order. -/
theorem foldl_add_module_append :
    ∀ (p_seq : List Child) (seq : SeqModule),
      (∀ nc ∈ p_seq, ∀ mc ∈ seq, mc.1 ≠ nc.1) →
      (p_seq.map Prod.fst).Nodup →
      p_seq.foldl (fun s nc => add_module s nc.1 nc.2) seq = seq ++ p_seq := by
  intro p_seq
  induction p_seq with
  | nil =>
      intro seq _ _
      simp
  | cons nc rest ih =>
      intro seq h1 h2
      simp only [List.foldl_cons]
      have hfresh : ∀ mc ∈ seq, mc.1 ≠ nc.1 := h1 nc (by simp)
      have hnodup : (nc.1 :: rest.map Prod.fst).Nodup := by simpa using h2
      rw [show add_module seq nc.1 nc.2 = seq ++ [(nc.1, nc.2)] from
        add_module_fresh seq nc.1 nc.2 hfresh]
      have heta : ((nc.1, nc.2) : Child) = nc := rfl
      rw [heta]
      rw [ih (seq ++ [nc]) ?_ (List.nodup_cons.mp hnodup).2]
      · simp
      · intro nc2 hnc2 mc hmc
        rcases List.mem_append.mp hmc with hm | hm
        · exact h1 nc2 (by simp [hnc2]) mc hm
        · have hmceq : mc = nc := by simpa using hm
          subst hmceq
          intro heq
          exact (List.nodup_cons.mp hnodup).1
            (heq ▸ List.mem_map.mpr ⟨nc2, hnc2, rfl⟩)

/-- The reconstruction loop over partial sequentials with globally distinct
child names concatenates them in order after the accumulator. -/
theorem concat_children_eq_join :
    ∀ (parts : List SeqModule) (seqacc : SeqModule),
      ((seqacc ++ parts.flatten).map Prod.fst).Nodup →
      parts.foldl
        (fun seq p_seq => p_seq.foldl (fun s nc => add_module s nc.1 nc.2) seq) seqacc
        = seqacc ++ parts.flatten := by
  intro parts
  induction parts with
  | nil =>
      intro seqacc _
      simp
  | cons p rest ih =>
      intro seqacc h
      simp only [List.foldl_cons]
      have h' : ((seqacc.map Prod.fst) ++ ((p.map Prod.fst) ++ (rest.flatten.map Prod.fst))).Nodup := by
        simpa [List.map_append] using h
      rcases List.nodup_append.mp h' with ⟨hacc, hrest, hdisj⟩
      rcases List.nodup_append.mp hrest with ⟨hp, hjoin, hdisj2⟩
      have hfresh : ∀ nc ∈ p, ∀ mc ∈ seqacc, mc.1 ≠ nc.1 := by
        intro nc hnc mc hmc heq
        exact hdisj (List.mem_map.mpr ⟨mc, hmc, rfl⟩)
          (List.mem_append.mpr (Or.inl (heq ▸ List.mem_map.mpr ⟨nc, hnc, rfl⟩)))
      rw [foldl_add_module_append p seqacc hfresh hp]
      rw [ih (seqacc ++ p) ?_]
      · simp
      · have : ((seqacc ++ p) ++ rest.flatten) = seqacc ++ (p ++ rest.flatten) := by
          simp [List.append_assoc]
        rw [this]
        simpa [List.map_append] using h

/-- `concat_children` of partial sequentials with globally distinct child
names is their concatenation. -/
theorem concat_children_of_nodup (parts : List SeqModule)
    (h : (parts.flatten.map Prod.fst).Nodup) :
    concat_children parts = parts.flatten := by
  have := concat_children_eq_join parts [] (by simpa using h)
  simpa [concat_children] using this

/-- `rpc_save_model` leaves `pl_module.layers` as it found it, on every path:
on failure the assignment never happens, on success the original object is
restored after `save_model_fn` returns. -/
theorem rpc_save_model_layers_eq (hfw : Bool) (n : ℕ) (local_seq : ℕ → SeqModule)
    (fs : ShardFS) (L : Layers) :
    (rpc_save_model hfw n local_seq fs L).layers = L := by
  cases hfw with
  | false => rfl
  | true =>
      have hun : rpc_save_model true n local_seq fs L
          = match reload_sequential (save_all_shards n local_seq fs) n with
            | (none, fs2) => ⟨false, fs2, L, []⟩
            | (some seq, fs2) => ⟨true, fs2, L, [seq]⟩ := rfl
      rw [hun]
      rcases reload_sequential (save_all_shards n local_seq fs) n with ⟨os, fs2⟩
      cases os <;> rfl

/-! ## Claim theorems: distributed checkpointing -/

/-- C7: when the per-rank shards partition an original sequential whose child
names are distinct (as they are for any partition of a real sequential
module), saving every rank's shard and then reloading reconstructs exactly
the original children, in order, by name and value — and afterwards none of
the `n` temporary shard files exist. -/
theorem C7_checkpoint_roundtrip (n : ℕ) (local_seq : ℕ → SeqModule) (fs : ShardFS)
    (hnodup : ((((List.range n).map local_seq).flatten).map Prod.fst).Nodup) :
    (reload_sequential (save_all_shards n local_seq fs) n).1
      = some (((List.range n).map local_seq).flatten)
  ∧ (List.range n).all
      (fun r => ((reload_sequential (save_all_shards n local_seq fs) n).2 r).isNone)
      = true := by
  have happ : ∀ r, r < n → save_all_shards n local_seq fs r = some (local_seq r) := by
    intro r hr
    rw [save_all_shards_apply]
    simp [hr]
  have hload : load_all (save_all_shards n local_seq fs) (List.range n)
      = some ((List.range n).map local_seq) :=
    load_all_eq_some _ local_seq (List.range n)
      (fun r hr => happ r (List.mem_range.mp hr))
  have hsome : ∀ r, r < n → ((save_all_shards n local_seq fs) r).isSome := by
    intro r hr
    rw [happ r hr]
    rfl
  rcases remove_all_range_spec n _ hsome with ⟨fs2, hrem, hfs2⟩
  have hreload : reload_sequential (save_all_shards n local_seq fs) n
      = (some (concat_children ((List.range n).map local_seq)), fs2) := by
    simp [reload_sequential, hload, hrem]
  constructor
  · rw [hreload, concat_children_of_nodup _ hnodup]
  · rw [List.all_eq_true]
    intro r hr
    rw [hreload]
    simp [hfs2 r, List.mem_range.mp hr]

/-- C7 witness: three layers named 0, 1, 2 split as `[2, 1]` over two ranks;
saving and reloading on an empty directory rebuilds the original and leaves
no shard file. -/
theorem C7_witness :
    (reload_sequential
        (save_all_shards 2 (fun r => if r = 0 then [(0, 10), (1, 11)] else [(2, 12)])
          (fun _ => none)) 2).1
      = some [(0, 10), (1, 11), (2, 12)]
  ∧ (List.range 2).all
      (fun r => ((reload_sequential
          (save_all_shards 2 (fun r => if r = 0 then [(0, 10), (1, 11)] else [(2, 12)])
            (fun _ => none)) 2).2 r).isNone)
      = true :=
  C7_checkpoint_roundtrip 2
    (fun r => if r = 0 then [(0, 10), (1, 11)] else [(2, 12)])
    (fun _ => none) (by decide)

/-- C8 counterexample: two shards expected, shard 0's file present, shard 1's
missing. The reload fails fatally, but the completed shard's temporary file
is NOT deleted: it is still on disk afterwards. -/
theorem C8_counterexample :
    (reload_sequential (fun r => if r = 0 then some [(0, 1)] else none) 2).1 = none
  ∧ (reload_sequential (fun r => if r = 0 then some [(0, 1)] else none) 2).2 0
      = some [(0, 1)] := by
  constructor <;> rfl

/-- C8 amended: when any shard file among ranks `0 .. n-1` is missing, the
reload fails fatally (it returns no module, so within `rpc_save_model` the
exception propagates before `save_model_fn` runs and no checkpoint is
written) — but the shard directory is left exactly as it was: the temporary
files of the shards that did complete are NOT deleted. -/
theorem C8_amended (fs : ShardFS) (n r : ℕ) (h1 : r < n) (h2 : fs r = none) :
    (reload_sequential fs n).1 = none ∧ (reload_sequential fs n).2 = fs := by
  have hload : load_all fs (List.range n) = none :=
    load_all_of_missing fs (List.range n) r (List.mem_range.mpr h1) h2
  constructor <;> simp [reload_sequential, hload]

/-- C8 witness: the concrete directory of the counterexample. -/
theorem C8_witness :
    (1 : ℕ) < 2
  ∧ ((reload_sequential (fun r => if r = 0 then some [(0, 1)] else none) 2).1 = none
    ∧ (reload_sequential (fun r => if r = 0 then some [(0, 1)] else none) 2).2
        = fun r => if r = 0 then some [(0, 1)] else none) :=
  ⟨by decide, C8_amended (fun r => if r = 0 then some [(0, 1)] else none) 2 1 (by decide) rfl⟩

/-- C9: a successful `rpc_save_model` call leaves `pl_module.layers` holding
the very same original pipeline-wrapped object it held before the call; the
reconstructed sequential is only passed to `save_model_fn` in between. -/
theorem C9_layers_restored (hfw : Bool) (n : ℕ) (local_seq : ℕ → SeqModule)
    (fs : ShardFS) (L : Layers)
    (_hok : (rpc_save_model hfw n local_seq fs L).ok = true) :
    (rpc_save_model hfw n local_seq fs L).layers = L :=
  rpc_save_model_layers_eq hfw n local_seq fs L

/-- C9 witness: a one-shard pipelined model; the call succeeds and the
original wrapped object (id 7) is back in place. -/
theorem C9_witness :
    (rpc_save_model true 1 (fun _ => [(0, 2)]) (fun _ => none) (Layers.pipe_wrapped 7)).ok
      = true
  ∧ (rpc_save_model true 1 (fun _ => [(0, 2)]) (fun _ => none) (Layers.pipe_wrapped 7)).layers
      = Layers.pipe_wrapped 7 :=
  ⟨rfl, C9_layers_restored true 1 (fun _ => [(0, 2)]) (fun _ => none)
    (Layers.pipe_wrapped 7) rfl⟩

/-- C10: when the model lacks `foreach_worker` (pipelining inactive),
`rpc_save_model` returns without raising and without any effect: the shard
directory is untouched, `save_model_fn` is never invoked, and
`pl_module.layers` is unchanged. -/
theorem C10_no_pipeline (n : ℕ) (local_seq : ℕ → SeqModule) (fs : ShardFS) (L : Layers) :
    rpc_save_model false n local_seq fs L = ⟨true, fs, L, []⟩ :=
  rfl
